import Mathlib

/-
Verification of the OSPFS core (wahidac/Lab3, src/ospfsmod.c).

The development shallowly embeds the on-disk data engine of the module:
the free-block bitmap, the inode block-pointer tree, add_block /
remove_block / change_size, directory-entry allocation, the read/write
copy loops, and symbolic-link resolution.  Machine integers are modelled
as Nat (with explicit mod 2 to the 32 where C wraps), the disk as a map
from block number to a map from byte offset to byte value, and the
kernel error-pointer convention (ERR_PTR / IS_ERR / PTR_ERR) as 32-bit
addresses.  Loops are given explicit fuel; running out of fuel is a
distinguished outcome that never occurs in the runs proved about.
-/

/-- Modelled from the spec: ospfs.h is not under src/.  The spec fixes
1024-byte blocks (section 2, "Fixed-size array of 1024-byte blocks"). -/
def OSPFS_BLKSIZE : Nat := 1024

/-- Modelled from the spec: number of direct pointers per inode (ND);
the standard ospfs.h value is 10. -/
def OSPFS_NDIRECT : Nat := 10

/-- Modelled from the spec: NI = BLKSIZE / 4 (section 6, Constants). -/
def OSPFS_NINDIRECT : Nat := OSPFS_BLKSIZE / 4

/-- Modelled from the spec: a file holds at most ND + NI + NI*NI blocks
(section 3, Constants). -/
def OSPFS_MAXFILEBLKS : Nat :=
  OSPFS_NDIRECT + OSPFS_NINDIRECT + OSPFS_NINDIRECT * OSPFS_NINDIRECT

/-- Modelled from the spec: directory entry record size, 4-byte inode
number plus MAXNAMELEN+1 name bytes plus padding (section 6); the
standard ospfs.h packs this to 128 bytes. -/
def OSPFS_DIRENTRY_SIZE : Nat := 128

/-- Modelled from the spec: the inline symlink buffer capacity; the
inode record is 64 bytes, 12 header bytes precede the buffer, so the
target string plus terminator fits in 52 bytes (MAXSYMLINKLEN = 51). -/
def OSPFS_MAXSYMLINKLEN : Nat := 51

/-- Modelled from the spec: the free bitmap starts at block 2
(section 6, on-disk layout). -/
def OSPFS_FREEMAP_BLK : Nat := 2

/-- Modelled from the spec: file type tag for regular files. -/
def OSPFS_FTYPE_REG : Nat := 0

/-- Modelled from the spec: file type tag for directories. -/
def OSPFS_FTYPE_DIR : Nat := 1

/-- Modelled from the spec: file type tag for symbolic links. -/
def OSPFS_FTYPE_SYMLINK : Nat := 2

/-- ospfs_size2nblocks (ospfsmod.c lines 135-139): number of blocks
needed to hold size bytes. -/
def ospfs_size2nblocks (size : Nat) : Nat :=
  (size + OSPFS_BLKSIZE - 1) / OSPFS_BLKSIZE

/-- indir2_index (ospfsmod.c lines 662-669): 0 if file block b needs the
doubly-indirect block, -1 otherwise. -/
def indir2_index (b : Nat) : Int :=
  if OSPFS_NDIRECT + OSPFS_NINDIRECT ≤ b ∧ b < OSPFS_MAXFILEBLKS then 0
  else -1

/-- indir_index (ospfsmod.c lines 683-692): -1 in the direct range, 0 in
the first-indirect range, the indirect slot within the doubly-indirect
block otherwise. -/
def indir_index (b : Nat) : Int :=
  if OSPFS_NDIRECT ≤ b ∧ b < OSPFS_NINDIRECT + OSPFS_NDIRECT then 0
  else if OSPFS_NINDIRECT + OSPFS_NDIRECT ≤ b ∧ b < OSPFS_MAXFILEBLKS then
    ((b - (OSPFS_NINDIRECT + OSPFS_NDIRECT)) / OSPFS_NINDIRECT : Nat)
  else -1

/-- direct_index (ospfsmod.c lines 704-716).  Note that in the
doubly-indirect range the source takes the remainder modulo
NINDIRECT + NDIRECT, not modulo NINDIRECT. -/
def direct_index (b : Nat) : Int :=
  if b < OSPFS_NDIRECT then b
  else if OSPFS_NDIRECT ≤ b ∧ b < OSPFS_NINDIRECT + OSPFS_NDIRECT then
    ((b - OSPFS_NDIRECT : Nat) : Int)
  else if OSPFS_NINDIRECT + OSPFS_NDIRECT ≤ b ∧ b < OSPFS_MAXFILEBLKS then
    ((b - (OSPFS_NINDIRECT + OSPFS_NDIRECT)) % (OSPFS_NINDIRECT + OSPFS_NDIRECT) : Nat)
  else -1

/-- The on-disk inode record ospfs_inode_t: size, file type, link count,
mode, the direct pointer array, and the two indirect pointers.  The
direct array is modelled as a total map from slot index to block
number (only slots below OSPFS_NDIRECT are meaningful). -/
structure OspfsInode where
  oi_size : Nat
  oi_ftype : Nat
  oi_nlink : Nat
  oi_mode : Nat
  oi_direct : Nat → Nat
  oi_indirect : Nat
  oi_indirect2 : Nat

/-- The disk image and free-block bitmap.  blocks maps a block number
and a byte offset to a byte value; bitmap maps a bit index to its value
(true = free, as in the source); firstinob is the first inode block,
which bounds the bitmap (allocate_block scans
(firstinob - OSPFS_FREEMAP_BLK) * BLKSIZE * 8 bits).  The bitmap is kept
as its own map rather than inside blocks; no claim under study reads the
bitmap through the block interface. -/
structure Disk where
  firstinob : Nat
  bitmap : Nat → Bool
  blocks : Nat → Nat → Nat

/-- Number of bits of the free bitmap, as computed in allocate_block
(ospfsmod.c lines 593-594). -/
def bitmap_num_bits (d : Disk) : Nat :=
  (d.firstinob - OSPFS_FREEMAP_BLK) * OSPFS_BLKSIZE * 8

/-- Little-endian 32-bit read of word w of block b, the view a
uint32_t pointer gives of a block. -/
def readWord (d : Disk) (b w : Nat) : Nat :=
  d.blocks b (4 * w) + 256 * d.blocks b (4 * w + 1)
    + 65536 * d.blocks b (4 * w + 2) + 16777216 * d.blocks b (4 * w + 3)

/-- Write one byte of one block. -/
def writeByte (d : Disk) (b o v : Nat) : Disk :=
  { d with blocks := fun b2 o2 => if b2 = b ∧ o2 = o then v else d.blocks b2 o2 }

/-- Little-endian 32-bit store of value v at word w of block b. -/
def setWord (d : Disk) (b w v : Nat) : Disk :=
  writeByte (writeByte (writeByte (writeByte d b (4 * w) (v % 256))
    b (4 * w + 1) (v / 256 % 256)) b (4 * w + 2) (v / 65536 % 256))
    b (4 * w + 3) (v / 16777216 % 256)

/-- memset(ospfs_block(b), 0, OSPFS_BLKSIZE): zero every byte of block b. -/
def zeroBlock (d : Disk) (b : Nat) : Disk :=
  { d with blocks := fun b2 o2 => if b2 = b then 0 else d.blocks b2 o2 }

/-- copy_from_user(data + o, buffer, l.length) into block b: store the
byte list l at offsets o, o+1, ... of block b. -/
def writeBytes (d : Disk) (b o : Nat) (l : List Nat) : Disk :=
  { d with blocks := fun b2 o2 =>
      if b2 = b ∧ o ≤ o2 ∧ o2 < o + l.length then l.getD (o2 - o) 0
      else d.blocks b2 o2 }

/-- copy_to_user of l bytes starting at offset o of block b: the bytes read. -/
def readBytes (d : Disk) (b o n : Nat) : List Nat :=
  (List.range n).map fun i => d.blocks b (o + i)

/-- The bit scan of allocate_block (ospfsmod.c lines 596-602): walk bits
from index bit upward while fuel remains, returning the first free bit. -/
def bitmap_scan (bm : Nat → Bool) (bit : Nat) : Nat → Option Nat
  | 0 => none
  | fuel + 1 => if bm bit then some bit else bitmap_scan bm (bit + 1) fuel

/-- allocate_block (ospfsmod.c lines 587-610): first free bit of the
bitmap is cleared and returned; 0 is returned when the disk is full. -/
def allocate_block (d : Disk) : Nat × Disk :=
  match bitmap_scan d.bitmap 0 (bitmap_num_bits d) with
  | some bit =>
      (bit, { d with bitmap := fun i => if i = bit then false else d.bitmap i })
  | none => (0, d)

/-- free_block (ospfsmod.c lines 625-630): set the bit of blockno. -/
def free_block (d : Disk) (blockno : Nat) : Disk :=
  { d with bitmap := fun i => if i = blockno then true else d.bitmap i }

/-- Result of add_block, remove_block and change_size: 0, -ENOSPC or
-EIO in the source; outOfFuel marks exhaustion of the explicit loop fuel
in change_size and never arises in the runs proved about. -/
inductive FsRes where
  | ok : FsRes
  | enospc : FsRes
  | eio : FsRes
  | outOfFuel : FsRes
deriving DecidableEq

/-- The size update at the end of add_block (ospfsmod.c lines 981-984):
a size that is not a block multiple is rounded up to the next multiple
and then a further whole block is added. -/
def add_block_size_update (oi : OspfsInode) : OspfsInode :=
  if oi.oi_size % OSPFS_BLKSIZE ≠ 0 then
    { oi with oi_size :=
        oi.oi_size + (OSPFS_BLKSIZE - oi.oi_size % OSPFS_BLKSIZE) + OSPFS_BLKSIZE }
  else
    { oi with oi_size := oi.oi_size + OSPFS_BLKSIZE }

/-- add_block (ospfsmod.c lines 750-989): append one data block to the
file, allocating indirect and doubly-indirect blocks as needed.  The
translation preserves the source faithfully, including the branch at
lines 886-914 that links a freshly allocated indirect block without
zeroing it, and the use of direct_index as written.  The mutated inode
and disk are returned on every path, as the C mutates in place. -/
def add_block (oi : OspfsInode) (d : Disk) : FsRes × OspfsInode × Disk :=
  let n := ospfs_size2nblocks oi.oi_size
  if n < OSPFS_NDIRECT then
    let r0 := allocate_block d
    if r0.1 = 0 then (.enospc, oi, r0.2)
    else
      let d1 := zeroBlock r0.2 r0.1
      let oi1 := { oi with oi_direct := fun i => if i = n then r0.1 else oi.oi_direct i }
      (.ok, add_block_size_update oi1, d1)
  else if n < OSPFS_NDIRECT + OSPFS_NINDIRECT then
    if direct_index n < 0 then (.eio, oi, d)
    else if oi.oi_indirect ≠ 0 then
      let r0 := allocate_block d
      if r0.1 ≠ 0 then
        let d1 := zeroBlock r0.2 r0.1
        let d2 := setWord d1 oi.oi_indirect (direct_index n).toNat r0.1
        (.ok, add_block_size_update oi, d2)
      else (.enospc, oi, r0.2)
    else
      let r0 := allocate_block d
      if r0.1 = 0 then (.enospc, oi, r0.2)
      else
        let d1 := zeroBlock r0.2 r0.1
        let oi1 := { oi with oi_indirect := r0.1 }
        let r1 := allocate_block d1
        if r1.1 ≠ 0 then
          let d2 := zeroBlock r1.2 r1.1
          let d3 := setWord d2 oi1.oi_indirect (direct_index n).toNat r1.1
          (.ok, add_block_size_update oi1, d3)
        else
          let d2 := free_block r1.2 r0.1
          (.enospc, { oi1 with oi_indirect := 0 }, d2)
  else if n < OSPFS_MAXFILEBLKS then
    if indir_index n < 0 ∨ direct_index n < 0 then (.eio, oi, d)
    else if oi.oi_indirect2 ≠ 0 then
      if indir_index n < 0 then (.eio, oi, d)
      else
        let ib := readWord d oi.oi_indirect2 (indir_index n).toNat
        if ib ≠ 0 then
          let r0 := allocate_block d
          if r0.1 ≠ 0 then
            let d1 := zeroBlock r0.2 r0.1
            let d2 := setWord d1 ib (direct_index n).toNat r0.1
            (.ok, add_block_size_update oi, d2)
          else (.enospc, oi, r0.2)
        else
          let r0 := allocate_block d
          if r0.1 = 0 then (.enospc, oi, r0.2)
          else
            let d1 := setWord r0.2 oi.oi_indirect2 (indir_index n).toNat r0.1
            let r1 := allocate_block d1
            if r1.1 = 0 then
              let d2 := free_block r1.2 r0.1
              let d3 := setWord d2 oi.oi_indirect2 (indir_index n).toNat 0
              (.enospc, oi, d3)
            else
              let d2 := zeroBlock r1.2 r1.1
              let d3 := setWord d2 r0.1 (direct_index n).toNat r1.1
              (.ok, add_block_size_update oi, d3)
    else
      let r0 := allocate_block d
      if r0.1 = 0 then (.enospc, oi, r0.2)
      else
        let d1 := zeroBlock r0.2 r0.1
        let oi1 := { oi with oi_indirect2 := r0.1 }
        let r1 := allocate_block d1
        if r1.1 ≠ 0 then
          let d2 := zeroBlock r1.2 r1.1
          let d3 := setWord d2 oi1.oi_indirect2 (indir_index n).toNat r1.1
          let r2 := allocate_block d3
          if r2.1 ≠ 0 then
            let d4 := zeroBlock r2.2 r2.1
            let d5 := setWord d4 r1.1 (direct_index n).toNat r2.1
            (.ok, add_block_size_update oi1, d5)
          else
            let d4 := free_block (free_block r2.2 r0.1) r1.1
            (.enospc, { oi1 with oi_indirect2 := 0 }, d4)
        else
          let d2 := free_block r1.2 r0.1
          (.enospc, { oi1 with oi_indirect2 := 0 }, d2)
  else (.eio, oi, d)

/-- The size update at the end of remove_block (ospfsmod.c lines
1095-1098): drop the partial-block remainder if one exists, else one
whole block. -/
def remove_block_size_update (oi : OspfsInode) : OspfsInode :=
  if oi.oi_size % OSPFS_BLKSIZE ≠ 0 then
    { oi with oi_size := oi.oi_size - oi.oi_size % OSPFS_BLKSIZE }
  else
    { oi with oi_size := oi.oi_size - OSPFS_BLKSIZE }

/-- remove_block (ospfsmod.c lines 1014-1102): free the last block of
the file, releasing indirect containers that become empty, then apply
the size update.  All error paths return before any mutation, as in the
source. -/
def remove_block (oi : OspfsInode) (d : Disk) : FsRes × OspfsInode × Disk :=
  let n := ospfs_size2nblocks oi.oi_size
  if n = 0 then (.eio, oi, d)
  else if indir_index (n - 1) < 0 then
    let d1 := free_block d (oi.oi_direct (n - 1))
    let oi1 := { oi with oi_direct := fun i => if i = n - 1 then 0 else oi.oi_direct i }
    (.ok, remove_block_size_update oi1, d1)
  else if indir2_index (n - 1) < 0 then
    if direct_index (n - 1) < 0 ∨ oi.oi_indirect = 0 then (.eio, oi, d)
    else
      let slot := (direct_index (n - 1)).toNat
      let d1 := free_block d (readWord d oi.oi_indirect slot)
      let d2 := setWord d1 oi.oi_indirect slot 0
      if indir_index (n - 2) < 0 then
        let d3 := free_block d2 oi.oi_indirect
        (.ok, remove_block_size_update { oi with oi_indirect := 0 }, d3)
      else (.ok, remove_block_size_update oi, d2)
  else if 0 ≤ indir_index (n - 1) then
    if indir_index (n - 1) < 0 ∨ direct_index (n - 1) < 0 then (.eio, oi, d)
    else if oi.oi_indirect2 = 0 then (.eio, oi, d)
    else
      let islot := (indir_index (n - 1)).toNat
      let ib := readWord d oi.oi_indirect2 islot
      let dslot := (direct_index (n - 1)).toNat
      let d1 := free_block d (readWord d ib dslot)
      let d2 := setWord d1 ib dslot 0
      if direct_index (n - 1) = 0 then
        let d3 := free_block d2 ib
        let d4 := setWord d3 oi.oi_indirect2 islot 0
        if indir2_index (n - 2) < 0 then
          let d5 := free_block d4 oi.oi_indirect2
          (.ok, remove_block_size_update { oi with oi_indirect2 := 0 }, d5)
        else (.ok, remove_block_size_update oi, d4)
      else (.ok, remove_block_size_update oi, d2)
  else (.eio, oi, d)

/-- The inner roll-back loop of change_size (ospfsmod.c lines
1159-1167): remove blocks while the size exceeds the entry size, then
report -ENOSPC; a failing remove_block is surfaced instead. -/
def change_size_rollback (old_size : Nat) (oi : OspfsInode) (d : Disk) :
    Nat → FsRes × OspfsInode × Disk
  | 0 => (.outOfFuel, oi, d)
  | fuel + 1 =>
    if old_size < oi.oi_size then
      match remove_block oi d with
      | (.ok, oi1, d1) => change_size_rollback old_size oi1 d1 fuel
      | r => r
    else (.enospc, oi, d)

/-- The growth loop of change_size (ospfsmod.c lines 1148-1173). -/
def change_size_grow (new_size old_size : Nat) (oi : OspfsInode) (d : Disk) :
    Nat → FsRes × OspfsInode × Disk
  | 0 => (.outOfFuel, oi, d)
  | fuel + 1 =>
    if ospfs_size2nblocks oi.oi_size < ospfs_size2nblocks new_size then
      match add_block oi d with
      | (.ok, oi1, d1) => change_size_grow new_size old_size oi1 d1 fuel
      | (.enospc, oi1, d1) =>
          change_size_rollback old_size oi1 d1 (ospfs_size2nblocks new_size + 2)
      | r => r
    else (.ok, oi, d)

/-- The shrink loop of change_size (ospfsmod.c lines 1176-1184). -/
def change_size_shrink (new_size : Nat) (oi : OspfsInode) (d : Disk) :
    Nat → FsRes × OspfsInode × Disk
  | 0 => (.outOfFuel, oi, d)
  | fuel + 1 =>
    if ospfs_size2nblocks new_size < ospfs_size2nblocks oi.oi_size then
      match remove_block oi d with
      | (.ok, oi1, d1) => change_size_shrink new_size oi1 d1 fuel
      | r => r
    else (.ok, oi, d)

/-- change_size (ospfsmod.c lines 1141-1191): grow or shrink one block
at a time until the block counts match, then store new_size exactly. -/
def change_size (oi : OspfsInode) (d : Disk) (new_size : Nat) :
    FsRes × OspfsInode × Disk :=
  match change_size_grow new_size oi.oi_size oi d (ospfs_size2nblocks new_size + 1) with
  | (.ok, oi1, d1) =>
    match change_size_shrink new_size oi1 d1 (ospfs_size2nblocks oi.oi_size + 1) with
    | (.ok, oi2, d2) => (.ok, { oi2 with oi_size := new_size }, d2)
    | r => r
  | r => r

/-- ospfs_inode_blockno (ospfsmod.c lines 181-197): resolve a byte
offset of a file to a physical block number through the inode's direct
array, indirect block, or doubly-indirect block; 0 past end of file or
for symlinks. -/
def ospfs_inode_blockno (oi : OspfsInode) (d : Disk) (offset : Nat) : Nat :=
  if oi.oi_size ≤ offset ∨ oi.oi_ftype = OSPFS_FTYPE_SYMLINK then 0
  else if OSPFS_NDIRECT + OSPFS_NINDIRECT ≤ offset / OSPFS_BLKSIZE then
    readWord d
      (readWord d oi.oi_indirect2
        ((offset / OSPFS_BLKSIZE - (OSPFS_NDIRECT + OSPFS_NINDIRECT)) / OSPFS_NINDIRECT))
      ((offset / OSPFS_BLKSIZE - (OSPFS_NDIRECT + OSPFS_NINDIRECT)) % OSPFS_NINDIRECT)
  else if OSPFS_NDIRECT ≤ offset / OSPFS_BLKSIZE then
    readWord d oi.oi_indirect (offset / OSPFS_BLKSIZE - OSPFS_NDIRECT)
  else oi.oi_direct (offset / OSPFS_BLKSIZE)

/-- The pointer-tree lookup for a file block index, without the size and
file-type guard of ospfs_inode_blockno; used to state invariants about
states the copy loops run over. -/
def blk_resolve (oi : OspfsInode) (d : Disk) (k : Nat) : Nat :=
  if OSPFS_NDIRECT + OSPFS_NINDIRECT ≤ k then
    readWord d
      (readWord d oi.oi_indirect2
        ((k - (OSPFS_NDIRECT + OSPFS_NINDIRECT)) / OSPFS_NINDIRECT))
      ((k - (OSPFS_NDIRECT + OSPFS_NINDIRECT)) % OSPFS_NINDIRECT)
  else if OSPFS_NDIRECT ≤ k then
    readWord d oi.oi_indirect (k - OSPFS_NDIRECT)
  else oi.oi_direct k

/-- Blocks the pointer-tree traversal of an inode reads: the indirect
block, the doubly-indirect block, and every block number stored in the
doubly-indirect block.  Data blocks of a well-formed file are disjoint
from these. -/
def isMetaBlock (oi : OspfsInode) (d : Disk) (b : Nat) : Bool :=
  b == oi.oi_indirect || b == oi.oi_indirect2 ||
    (List.range OSPFS_NINDIRECT).any fun w => b == readWord d oi.oi_indirect2 w

/-- Outcome of a copy loop of ospfs_read / ospfs_write: the loop ran to
completion, hit a zero block number (-EIO), or ran out of the explicit
fuel (never happens in the runs proved about; the C loop terminates
because every iteration moves at least one byte). -/
inductive CopyEnd where
  | done : CopyEnd
  | eio : CopyEnd
  | outOfFuel : CopyEnd
deriving DecidableEq

/-- The copy loop of ospfs_write (ospfsmod.c lines 1368-1415): while
fewer than count bytes are moved, resolve the block under f_pos, copy
min(count - amount, BLKSIZE - f_pos mod BLKSIZE) bytes of the user
buffer into it, and advance.  copy_from_user is modelled as always
succeeding, which is the hypothesis of the claims under study. -/
def ospfs_write_loop (oi : OspfsInode) (buf : List Nat) (count : Nat) :
    Nat → Disk → Nat → Nat → CopyEnd × Nat × Disk
  | 0, d, _, amount => (.outOfFuel, amount, d)
  | fuel + 1, d, fpos, amount =>
    if amount < count then
      let blockno := ospfs_inode_blockno oi d fpos
      if blockno = 0 then (.eio, amount, d)
      else
        let blk_off := fpos % OSPFS_BLKSIZE
        let n := min (count - amount) (OSPFS_BLKSIZE - blk_off)
        let d1 := writeBytes d blockno blk_off ((buf.drop amount).take n)
        ospfs_write_loop oi buf count fuel d1 (fpos + n) (amount + n)
    else (.done, amount, d)

/-- The copy loop of ospfs_read (ospfsmod.c lines 1260-1318), collecting
the bytes given to copy_to_user. -/
def ospfs_read_loop (oi : OspfsInode) (count : Nat) (d : Disk) :
    Nat → Nat → Nat → List Nat → CopyEnd × Nat × List Nat
  | 0, _, amount, acc => (.outOfFuel, amount, acc)
  | fuel + 1, fpos, amount, acc =>
    if amount < count then
      let blockno := ospfs_inode_blockno oi d fpos
      if blockno = 0 then (.eio, amount, acc)
      else
        let blk_off := fpos % OSPFS_BLKSIZE
        let n := min (count - amount) (OSPFS_BLKSIZE - blk_off)
        ospfs_read_loop oi count d fuel (fpos + n) (amount + n)
          (acc ++ readBytes d blockno blk_off n)
    else (.done, amount, acc)

/-- ospfs_read (ospfsmod.c lines 1246-1322): clamp count so the read
never passes end of file (the uint32/loff_t arithmetic of line 1257 is
kept: the difference is truncated to 32 bits), then run the copy loop. -/
def ospfs_read (oi : OspfsInode) (d : Disk) (fpos count : Nat) :
    CopyEnd × Nat × List Nat :=
  let count1 :=
    if (oi.oi_size : Int) < (fpos : Int) + (count : Int)
    then (((oi.oi_size : Int) - (fpos : Int)) % (2 ^ 32 : Int)).toNat
    else count
  ospfs_read_loop oi count1 d (count1 + 1) fpos 0 []

/-- The size-adjustment step of ospfs_write (ospfsmod.c lines
1361-1365): free_space = oi_size - f_pos as a uint32, and when it is
smaller than count the file is grown with change_size, whose return
value the source ignores. -/
def write_resize (oi : OspfsInode) (d : Disk) (fpos count : Nat) :
    OspfsInode × Disk :=
  let free_space := (((oi.oi_size : Int) - (fpos : Int)) % (2 ^ 32 : Int)).toNat
  if free_space < count then
    let r := change_size oi d (oi.oi_size + (count - free_space))
    (r.2.1, r.2.2)
  else (oi, d)

/-- The copy phase of ospfs_write, run on the inode and disk the
size-adjustment step produced: the loop outcome, the byte count, the
inode and the final disk. -/
def ospfs_write_go (oi1 : OspfsInode) (d1 : Disk) (fpos : Nat)
    (buf : List Nat) : CopyEnd × Nat × OspfsInode × Disk :=
  ((ospfs_write_loop oi1 buf buf.length (buf.length + 1) d1 fpos 0).1,
   (ospfs_write_loop oi1 buf buf.length (buf.length + 1) d1 fpos 0).2.1,
   oi1,
   (ospfs_write_loop oi1 buf buf.length (buf.length + 1) d1 fpos 0).2.2)

/-- ospfs_write (ospfsmod.c lines 1342-1419): with O_APPEND the file
position is replaced by the file size, then the file is grown if needed
and the copy loop runs.  Returns the loop outcome, the byte count, the
inode and the disk. -/
def ospfs_write (oi : OspfsInode) (d : Disk) (append : Bool) (fpos : Nat)
    (buf : List Nat) : CopyEnd × Nat × OspfsInode × Disk :=
  ospfs_write_go
    (write_resize oi d (if append then oi.oi_size else fpos) buf.length).1
    (write_resize oi d (if append then oi.oi_size else fpos) buf.length).2
    (if append then oi.oi_size else fpos) buf

/-- Modelled from the spec: the kernel address of the ospfs_data array.
Kernel object addresses never lie in the top 4095 addresses reserved for
error pointers; any ordinary value serves. -/
def ospfs_data_addr : Nat := 1048576

/-- ERR_PTR: an errno cast to a 32-bit pointer value. -/
def ERR_PTR (e : Int) : Nat := (e % (2 ^ 32 : Int)).toNat

/-- IS_ERR: a pointer is an error pointer iff it lies in the top
MAX_ERRNO = 4095 addresses. -/
def IS_ERR (p : Nat) : Bool := 2 ^ 32 - 4095 ≤ p

/-- PTR_ERR: the pointer read back as a signed long. -/
def PTR_ERR (p : Nat) : Int :=
  if p < 2 ^ 31 then (p : Int) else (p : Int) - 2 ^ 32

/-- The errno of an FsRes, as the int returned by add_block. -/
def fsErrno : FsRes → Int
  | .ok => 0
  | .enospc => -28
  | .eio => -5
  | .outOfFuel => -5

/-- The od_ino field of the directory entry at byte offset off of a
directory: the first 32-bit word of the entry record, read through
ospfs_inode_data. -/
def od_ino_at (dir : OspfsInode) (d : Disk) (off : Nat) : Nat :=
  readWord d (ospfs_inode_blockno dir d off) (off % OSPFS_BLKSIZE / 4)

/-- The address ospfs_inode_data yields for byte offset off of a file:
base of ospfs_data plus block base plus offset within the block. -/
def entry_ptr (dir : OspfsInode) (d : Disk) (off : Nat) : Nat :=
  ospfs_data_addr + ospfs_inode_blockno dir d off * OSPFS_BLKSIZE
    + off % OSPFS_BLKSIZE

/-- The scan of create_blank_direntry (ospfsmod.c lines 1488-1493):
walk the directory in OSPFS_DIRENTRY_SIZE steps looking for an entry
with od_ino = 0; the fuel dominates the iteration count. -/
def cbd_scan (dir : OspfsInode) (d : Disk) : Nat → Nat → Option Nat
  | _, 0 => none
  | off, fuel + 1 =>
    if off < dir.oi_size then
      if od_ino_at dir d off = 0 then some off
      else cbd_scan dir d (off + OSPFS_DIRENTRY_SIZE) fuel
    else none

/-- create_blank_direntry (ospfsmod.c lines 1477-1508): return a pointer
to a blank entry, extending the directory by one block if none exists.
The translation preserves the error return of line 1498 as written:
ERR_PTR(-success) with success itself negative, so the value handed
back for a failing add_block is ERR_PTR of a positive errno. -/
def create_blank_direntry (dir : OspfsInode) (d : Disk) :
    Nat × OspfsInode × Disk :=
  match cbd_scan dir d 0 (dir.oi_size / OSPFS_DIRENTRY_SIZE + 1) with
  | some off => (entry_ptr dir d off, dir, d)
  | none =>
    let off := dir.oi_size
    let r := add_block dir d
    if r.1 ≠ FsRes.ok then (ERR_PTR (-(fsErrno r.1)), r.2.1, r.2.2)
    else if od_ino_at r.2.1 r.2.2 off ≠ 0 then (ERR_PTR (-5), r.2.1, r.2.2)
    else (entry_ptr r.2.1 r.2.2 off, r.2.1, r.2.2)

/-- The guard every caller of create_blank_direntry runs (ospfs_create
lines 1619-1621, ospfs_link lines 1550-1552, ospfs_symlink lines
1716-1719): take the returned pointer, and return PTR_ERR of it when
IS_ERR recognizes it; none means the caller proceeds using the pointer
as a directory entry. -/
def direntry_error_check (dir : OspfsInode) (d : Disk) : Option Int :=
  let od := (create_blank_direntry dir d).1
  if IS_ERR od then some (PTR_ERR od) else none

/-- The symlink view of the inode record, ospfs_symlink_inode_t: size,
type, link count, then the inline null-terminated target buffer,
modelled as a map from byte index to byte value. -/
structure OspfsSymlinkInode where
  oi_size : Nat
  oi_ftype : Nat
  oi_nlink : Nat
  oi_symlink : Nat → Nat

/-- strcpy of the byte string s (no embedded zeros) into a buffer:
bytes 0 .. s.length - 1 take the string, byte s.length takes the
terminator, and every byte past it keeps its prior value. -/
def strcpy_buf (buf : Nat → Nat) (s : List Nat) : Nat → Nat :=
  fun i => if i < s.length then s.getD i 0 else if i = s.length then 0 else buf i

/-- The inode population of ospfs_symlink (ospfsmod.c lines 1723-1727):
store size, type and link count and strcpy the target; the rest of the
claimed record is left as found. -/
def ospfs_symlink_init (entry_oi : OspfsSymlinkInode) (symname : List Nat) :
    OspfsSymlinkInode :=
  { oi_size := symname.length, oi_ftype := OSPFS_FTYPE_SYMLINK, oi_nlink := 1,
    oi_symlink := strcpy_buf entry_oi.oi_symlink symname }

/-- The all-zero inode record. -/
def zeroed_inode : OspfsInode :=
  { oi_size := 0, oi_ftype := 0, oi_nlink := 0, oi_mode := 0,
    oi_direct := fun _ => 0, oi_indirect := 0, oi_indirect2 := 0 }

/-- The inode population of ospfs_create (ospfsmod.c lines 1645-1650):
memset the claimed record to zero, then set type, link count and mode.
The claimed record entry is fully overwritten. -/
def ospfs_create_init (entry : OspfsInode) (mode : Nat) : OspfsInode :=
  let ino := zeroed_inode
  { ino with
    oi_ftype := OSPFS_FTYPE_REG,
    oi_nlink := ino.oi_nlink + 1,
    oi_mode := mode }

/-- The byte values of the literal prefix the conditional-symlink logic
uses, the characters r, o, o, t, question mark. -/
def ROOTQ : List Nat := [114, 111, 111, 116, 63]

/-- The byte value of the colon character. -/
def COLON : Nat := 58

/-- strncpy(oi_symlink, the prefix, 5) (ospfsmod.c line 1766): the
source string has exactly five characters, so exactly the first five
bytes of the buffer are overwritten. -/
def strncpy_rootq (buf : Nat → Nat) : Nat → Nat :=
  fun i => if i < 5 then ROOTQ.getD i 0 else buf i

/-- strlen: index of the first zero byte at or after index i, scanning
at most fuel bytes; symlink buffers hold a terminator within their
capacity. -/
def cstrlen_from (buf : Nat → Nat) : Nat → Nat → Nat
  | i, 0 => i
  | i, fuel + 1 => if buf i = 0 then i else cstrlen_from buf (i + 1) fuel

/-- strlen of the symlink buffer. -/
def cstrlen (buf : Nat → Nat) : Nat :=
  cstrlen_from buf 0 (OSPFS_MAXSYMLINKLEN + 1)

/-- The colon search of ospfs_follow_link (ospfsmod.c lines 1770-1775):
first index at or after i and below len holding a colon; len when there
is none.  The loop mutates the buffer only after deciding to break, so
the scan reads the unmutated buffer. -/
def colon_scan (buf : Nat → Nat) (len : Nat) : Nat → Nat → Nat
  | i, 0 => i
  | i, fuel + 1 =>
    if i < len then
      if buf i = COLON then i else colon_scan buf len (i + 1) fuel
    else i

/-- ospfs_follow_link (ospfsmod.c lines 1759-1790) on the symlink
buffer: the source tests strncpy(oi_symlink, prefix, 5), which both
overwrites the first five bytes and always yields a non-null pointer,
so the conditional branch is always taken and the code at lines
1788-1789 is unreachable.  The first colon within the string is
replaced by a terminator; user id 0 is pointed at offset 5 and any
other user at the byte after the colon position.  Returns the offset
handed to nd_set_link and the mutated buffer. -/
def ospfs_follow_link (buf : Nat → Nat) (uid : Nat) : Nat × (Nat → Nat) :=
  let buf1 := strncpy_rootq buf
  let len := cstrlen buf1
  let i := colon_scan buf1 len 0 len
  let buf2 := if i < len then (fun j => if j = i then 0 else buf1 j) else buf1
  if uid = 0 then (5, buf2) else (i + 1, buf2)

/-- Read the C string at index start of a buffer (at most fuel bytes,
the buffer capacity). -/
def readCStr_from (buf : Nat → Nat) : Nat → Nat → List Nat
  | _, 0 => []
  | i, fuel + 1 => if buf i = 0 then [] else buf i :: readCStr_from buf (i + 1) fuel

/-- The C string at index start of the symlink buffer. -/
def readCStr (buf : Nat → Nat) (start : Nat) : List Nat :=
  readCStr_from buf start (OSPFS_MAXSYMLINKLEN + 1)

/-- The path a follow_link call resolves to: the C string at the offset
stored by nd_set_link, in the possibly mutated buffer. -/
def follow_link_resolved (buf : Nat → Nat) (uid : Nat) : List Nat :=
  readCStr (ospfs_follow_link buf uid).2 (ospfs_follow_link buf uid).1

/-- A disk for exercising change_size roll-back: one bitmap block
(8192 bits), exactly bit 6 free, data bytes all zero. -/
def cex_d1 : Disk :=
  { firstinob := 3, bitmap := fun b => b == 6, blocks := fun _ _ => 0 }

/-- A 100-byte regular file whose single data block is block 5. -/
def cex_oi1 : OspfsInode :=
  { oi_size := 100, oi_ftype := OSPFS_FTYPE_REG, oi_nlink := 1, oi_mode := 420,
    oi_direct := fun i => if i = 0 then 5 else 0,
    oi_indirect := 0, oi_indirect2 := 0 }

/-- cex_oi1 after the first add_block of the failing grow: two blocks,
block 6 in direct slot 1, size rounded to 2048. -/
def cex_oi1a : OspfsInode :=
  { cex_oi1 with
    oi_size := 2048,
    oi_direct := fun i => if i = 1 then 6 else cex_oi1.oi_direct i }

/-- cex_d1 after the first add_block: bit 6 cleared, block 6 zeroed. -/
def cex_d1a : Disk :=
  { cex_d1 with
    bitmap := fun i => if i = 6 then false else cex_d1.bitmap i,
    blocks := fun b2 o2 => if b2 = 6 then 0 else cex_d1.blocks b2 o2 }

/-- cex_oi1a after the first roll-back remove_block: one block left. -/
def cex_oi1b : OspfsInode :=
  { cex_oi1a with
    oi_size := 1024,
    oi_direct := fun i => if i = 1 then 0 else cex_oi1a.oi_direct i }

/-- cex_d1a after the first roll-back remove_block: bit 6 set again. -/
def cex_d1b : Disk :=
  { cex_d1a with bitmap := fun i => if i = 6 then true else cex_d1a.bitmap i }

/-- cex_oi1b after the second roll-back remove_block: the original data
block is gone and the size is 0. -/
def cex_oi1c : OspfsInode :=
  { cex_oi1b with
    oi_size := 0,
    oi_direct := fun i => if i = 0 then 0 else cex_oi1b.oi_direct i }

/-- cex_d1b after the second roll-back remove_block: bit 5, the bit of
the file's original data block, is now free. -/
def cex_d1c : Disk :=
  { cex_d1b with bitmap := fun i => if i = cex_oi1b.oi_direct 0 then true else cex_d1b.bitmap i }

/-- A full disk holding one directory data block (block 4) whose eight
entries all carry inode number 1: no free bitmap bit anywhere. -/
def cex_d2 : Disk :=
  { firstinob := 3, bitmap := fun _ => false,
    blocks := fun b o => if b = 4 ∧ o % 128 = 0 then 1 else 0 }

/-- A one-block directory stored in block 4, with no blank entry. -/
def cex_dir2 : OspfsInode :=
  { oi_size := 1024, oi_ftype := OSPFS_FTYPE_DIR, oi_nlink := 1, oi_mode := 0,
    oi_direct := fun i => if i = 0 then 4 else 0,
    oi_indirect := 0, oi_indirect2 := 0 }

/-- The symlink buffer of a plain (non-conditional) symlink whose stored
target is the five bytes of the word hello. -/
def helloBuf : Nat → Nat := fun j => [104, 101, 108, 108, 111].getD j 0

/-- A disk with blocks 20 and 21 free; block 20 carries the stale
nonzero byte 77 at offset 0. -/
def cex_d5 : Disk :=
  { firstinob := 3, bitmap := fun b => b == 20 || b == 21,
    blocks := fun b o => if b = 20 ∧ o = 0 then 77 else 0 }

/-- A 522-block regular file: its doubly-indirect block is block 30,
whose slot 1 (the slot of file block 522) is still empty, so the next
add_block must allocate a fresh indirect block. -/
def cex_oi5 : OspfsInode :=
  { oi_size := 522 * 1024, oi_ftype := OSPFS_FTYPE_REG, oi_nlink := 1,
    oi_mode := 420, oi_direct := fun _ => 0,
    oi_indirect := 40, oi_indirect2 := 30 }

/-- A freed inode record still carrying stale nonzero bytes (value 99)
throughout its symlink buffer area, as a previously deleted file leaves
them. -/
def staleSym : OspfsSymlinkInode :=
  { oi_size := 0, oi_ftype := 0, oi_nlink := 0, oi_symlink := fun _ => 99 }

/-- A freed regular-file inode record still carrying stale nonzero
fields from a previously deleted file. -/
def staleReg : OspfsInode :=
  { oi_size := 9, oi_ftype := 7, oi_nlink := 0, oi_mode := 5,
    oi_direct := fun _ => 9, oi_indirect := 9, oi_indirect2 := 9 }

/-- The buffer of a freshly created conditional symlink with targets /a
and /b. -/
def wit_condBuf : Nat → Nat :=
  fun j => (ROOTQ ++ [47, 97] ++ [COLON] ++ [47, 98]).getD j 0

/-- An empty-content disk for the read and write witnesses. -/
def wit_d8 : Disk :=
  { firstinob := 3, bitmap := fun _ => false, blocks := fun _ _ => 0 }

/-- An 8-byte regular file whose data block is block 7. -/
def wit_oi8 : OspfsInode :=
  { oi_size := 8, oi_ftype := OSPFS_FTYPE_REG, oi_nlink := 1, oi_mode := 420,
    oi_direct := fun i => if i = 0 then 7 else 0,
    oi_indirect := 0, oi_indirect2 := 0 }

theorem bitmap_scan_of_full (bm : Nat → Bool) (h : ∀ i, bm i = false) :
    ∀ fuel bit, bitmap_scan bm bit fuel = none := by
  intro fuel
  induction fuel with
  | zero => intro bit; rfl
  | succ n ih => intro bit; simp [bitmap_scan, h bit, ih]

theorem allocate_block_of_full (d : Disk) (h : ∀ i, d.bitmap i = false) :
    allocate_block d = (0, d) := by
  unfold allocate_block
  rw [bitmap_scan_of_full d.bitmap h]

theorem add_block_direct_enospc (oi : OspfsInode) (d : Disk)
    (hn : ospfs_size2nblocks oi.oi_size < OSPFS_NDIRECT)
    (h : ∀ i, d.bitmap i = false) :
    add_block oi d = (FsRes.enospc, oi, d) := by
  unfold add_block
  rw [if_pos hn, allocate_block_of_full d h]
  simp

theorem change_size_grow_ok_step {new old fuel : Nat} {oi oi1 : OspfsInode}
    {d d1 : Disk}
    (hc : ospfs_size2nblocks oi.oi_size < ospfs_size2nblocks new)
    (ha : add_block oi d = (FsRes.ok, oi1, d1)) :
    change_size_grow new old oi d (fuel + 1) = change_size_grow new old oi1 d1 fuel := by
  simp [change_size_grow, hc, ha]

theorem change_size_grow_enospc_step {new old fuel : Nat} {oi oi1 : OspfsInode}
    {d d1 : Disk}
    (hc : ospfs_size2nblocks oi.oi_size < ospfs_size2nblocks new)
    (ha : add_block oi d = (FsRes.enospc, oi1, d1)) :
    change_size_grow new old oi d (fuel + 1) =
      change_size_rollback old oi1 d1 (ospfs_size2nblocks new + 2) := by
  simp [change_size_grow, hc, ha]

theorem change_size_rollback_step {old fuel : Nat} {oi oi1 : OspfsInode}
    {d d1 : Disk} (hc : old < oi.oi_size)
    (hr : remove_block oi d = (FsRes.ok, oi1, d1)) :
    change_size_rollback old oi d (fuel + 1) = change_size_rollback old oi1 d1 fuel := by
  simp [change_size_rollback, hc, hr]

theorem change_size_rollback_done {old fuel : Nat} {oi : OspfsInode} {d : Disk}
    (hc : ¬ old < oi.oi_size) :
    change_size_rollback old oi d (fuel + 1) = (FsRes.enospc, oi, d) := by
  simp [change_size_rollback, hc]

theorem change_size_of_grow_enospc {oi oi1 : OspfsInode} {d d1 : Disk} {new : Nat}
    (h : change_size_grow new oi.oi_size oi d (ospfs_size2nblocks new + 1)
      = (FsRes.enospc, oi1, d1)) :
    change_size oi d new = (FsRes.enospc, oi1, d1) := by
  unfold change_size
  rw [h]

/-- C1: the claim states growth is transactional for every starting
size, including sizes that are not a multiple of BLKSIZE.  For the
100-byte file cex_oi1 (one data block, block 5) on a disk with exactly
one free block, change_size to 3000 bytes allocates one block, runs out
of space, and rolls back; because remove_block only lands on BLKSIZE
multiples and the roll-back loop runs while the size exceeds the entry
value, it removes the file's original block as well: change_size
returns OUT_OF_SPACE with size 0 (entry value 100) and with bit 5 of
the bitmap free (entry value allocated).  This contradicts the claim
and the requirement stated at ospfsmod.c lines 1118-1120. -/
theorem change_size_rollback_overshoot :
    change_size cex_oi1 cex_d1 3000 = (FsRes.enospc, cex_oi1c, cex_d1c) ∧
    cex_oi1.oi_size = 100 ∧ cex_oi1c.oi_size = 0 ∧
    cex_d1.bitmap 5 = false ∧ cex_d1c.bitmap 5 = true := by
  have hadd1 : add_block cex_oi1 cex_d1 = (FsRes.ok, cex_oi1a, cex_d1a) := rfl
  have hfullA : ∀ i, cex_d1a.bitmap i = false := by
    intro i
    by_cases h : i = 6 <;> simp [cex_d1a, cex_d1, h]
  have hadd2 : add_block cex_oi1a cex_d1a = (FsRes.enospc, cex_oi1a, cex_d1a) :=
    add_block_direct_enospc _ _ (by decide) hfullA
  have hrem1 : remove_block cex_oi1a cex_d1a = (FsRes.ok, cex_oi1b, cex_d1b) := rfl
  have hrem2 : remove_block cex_oi1b cex_d1b = (FsRes.ok, cex_oi1c, cex_d1c) := rfl
  refine ⟨?_, rfl, rfl, rfl, rfl⟩
  apply change_size_of_grow_enospc
  show change_size_grow 3000 100 cex_oi1 cex_d1 (2 + 1 + 1) = _
  rw [change_size_grow_ok_step (by decide) hadd1]
  rw [show (2 + 1 : Nat) = 1 + 1 + 1 from rfl]
  rw [change_size_grow_enospc_step (by decide) hadd2]
  show change_size_rollback 100 cex_oi1a cex_d1a (4 + 1) = _
  rw [change_size_rollback_step (by decide) hrem1]
  show change_size_rollback 100 cex_oi1b cex_d1b (3 + 1) = _
  rw [change_size_rollback_step (by decide) hrem2]
  show change_size_rollback 100 cex_oi1c cex_d1c (2 + 1) = _
  rw [change_size_rollback_done (by decide)]

/-- C2: the claim states that OUT_OF_SPACE from add_block inside
create_blank_direntry propagates to create, link and symlink.  On the
full disk cex_d2 with the blank-free directory cex_dir2, add_block
fails with -ENOSPC = -28, but line 1498 returns ERR_PTR(-success) =
ERR_PTR(+28), the plain address 28: IS_ERR does not recognize it, so
the guard shared by ospfs_create, ospfs_link and ospfs_symlink does not
return the error and the callers proceed treating address 28 as a
directory entry.  A correctly formed ERR_PTR(-28) would have been
recognized, as the last conjunct shows. -/
theorem create_blank_direntry_bogus_error_ptr :
    create_blank_direntry cex_dir2 cex_d2 = (28, cex_dir2, cex_d2) ∧
    IS_ERR 28 = false ∧
    direntry_error_check cex_dir2 cex_d2 = none ∧
    IS_ERR (ERR_PTR (-28)) = true := by
  have hscan : cbd_scan cex_dir2 cex_d2 0 9 = none := rfl
  have hadd : add_block cex_dir2 cex_d2 = (FsRes.enospc, cex_dir2, cex_d2) :=
    add_block_direct_enospc _ _ (by decide) (fun _ => rfl)
  have hmain : create_blank_direntry cex_dir2 cex_d2 = (28, cex_dir2, cex_d2) := by
    unfold create_blank_direntry
    rw [show cbd_scan cex_dir2 cex_d2 0 (cex_dir2.oi_size / OSPFS_DIRENTRY_SIZE + 1)
          = none from hscan]
    simp [hadd, fsErrno, ERR_PTR]
  refine ⟨hmain, rfl, ?_, rfl⟩
  unfold direntry_error_check
  rw [hmain]
  rfl

/-- C3: the claim states a symlink whose stored target does not begin
with the root-question prefix resolves to the stored string verbatim
for any user id.  The source tests strncpy(oi_symlink, prefix, 5)
instead of comparing: the call always succeeds, so the stored target
hello is overwritten with the prefix bytes and, with no colon present,
user 0 resolves to the empty string at offset 5 and user 7 to the empty
string one past the terminator, never to hello. -/
theorem follow_link_clobbers_plain_symlink :
    readCStr helloBuf 0 = [104, 101, 108, 108, 111] ∧
    follow_link_resolved helloBuf 0 = [] ∧
    follow_link_resolved helloBuf 7 = [] ∧
    readCStr (ospfs_follow_link helloBuf 7).2 0 = ROOTQ := by
  decide

/-- C4: the claim states that in the doubly-indirect range the direct
slot is (b - ND - NI) mod NI.  The source computes the remainder modulo
NI + ND instead: at b = 522 = ND + NI + NI it returns 256, which is not
a valid slot of a 256-entry indirect block, while the claimed formula
gives 0; ospfs_inode_blockno (line 191) indexes indirect blocks modulo
NI, as the claim says. -/
theorem direct_index_wrong_modulus :
    direct_index 522 = 256 ∧
    ((522 - (OSPFS_NDIRECT + OSPFS_NINDIRECT)) % OSPFS_NINDIRECT : Nat) = 0 ∧
    OSPFS_NDIRECT + OSPFS_NINDIRECT ≤ 522 ∧ 522 < OSPFS_MAXFILEBLKS := by
  decide

/-- C5: the claim states every block add_block allocates is zeroed
before it is linked into the pointer tree.  Growing the 522-block file
cex_oi5 (doubly-indirect block 30 present, its slot 1 empty) allocates
block 20 as the missing indirect block and links it into slot 1, but
the branch at ospfsmod.c lines 886-914 has no memset for it: the stale
byte 77 of block 20 is still there after the call succeeds. -/
theorem add_block_links_unzeroed_indirect :
    (add_block cex_oi5 cex_d5).1 = FsRes.ok ∧
    cex_d5.bitmap 20 = true ∧
    readWord (add_block cex_oi5 cex_d5).2.2 30 1 = 20 ∧
    (add_block cex_oi5 cex_d5).2.2.blocks 20 0 = 77 := by
  decide

/-- C6: the claim states create and symlink both zero the entire
claimed inode record before populating it.  ospfs_create does memset
the record (third conjunct: its result does not depend on the claimed
record), but ospfs_symlink stores only size, type and link count and
strcpy-s the target: on a claimed record full of stale byte 99, the
byte just past the copied terminator of target ab still reads 99. -/
theorem symlink_keeps_stale_inode_bytes :
    (ospfs_symlink_init staleSym [97, 98]).oi_symlink 3 = 99 ∧
    (ospfs_symlink_init staleSym [97, 98]).oi_symlink 2 = 0 ∧
    (ospfs_create_init staleReg 420 = ospfs_create_init zeroed_inode 420) := by
  refine ⟨rfl, rfl, rfl⟩

/-- C9: the claim states a write on a file opened with O_APPEND begins
at the current end of file, the supplied position being replaced by the
file size before any transfer.  With the append flag the result of
ospfs_write is literally independent of the position passed in. -/
theorem append_write_ignores_position (oi : OspfsInode) (d : Disk) (fpos : Nat)
    (buf : List Nat) :
    ospfs_write oi d true fpos buf = ospfs_write oi d true oi.oi_size buf := rfl

theorem cstrlen_from_eq (buf : Nat → Nat) (L : Nat) :
    ∀ fuel i, i ≤ L → L < i + fuel →
      (∀ j, i ≤ j → j < L → buf j ≠ 0) → buf L = 0 →
      cstrlen_from buf i fuel = L := by
  intro fuel
  induction fuel with
  | zero => intro i hi hlt _ _; omega
  | succ f ih =>
    intro i hi hlt hnz h0
    by_cases hiL : i = L
    · subst hiL; simp [cstrlen_from, h0]
    · have hilt : i < L := lt_of_le_of_ne hi hiL
      have : buf i ≠ 0 := hnz i le_rfl hilt
      simp only [cstrlen_from, this, if_neg]
      exact ih (i + 1) hilt (by omega) (fun j hj hjL => hnz j (by omega) hjL) h0

theorem colon_scan_eq (buf : Nat → Nat) (len ci : Nat) :
    ∀ fuel i, i ≤ ci → ci < len → len ≤ i + fuel →
      (∀ j, i ≤ j → j < ci → buf j ≠ COLON) → buf ci = COLON →
      colon_scan buf len i fuel = ci := by
  intro fuel
  induction fuel with
  | zero => intro i hi hci hlen _ _; omega
  | succ f ih =>
    intro i hi hci hlen hnc hc
    have hilen : i < len := by omega
    by_cases hiC : i = ci
    · subst hiC; simp [colon_scan, hilen, hc]
    · have hilt : i < ci := lt_of_le_of_ne hi hiC
      have : buf i ≠ COLON := hnc i le_rfl hilt
      simp only [colon_scan, hilen, if_pos, this, if_neg]
      exact ih (i + 1) hilt hci (by omega) (fun j hj hjC => hnc j (by omega) hjC) hc

theorem readCStr_from_eq (l : List Nat) :
    ∀ fuel s (buf : Nat → Nat),
      (∀ j, j < l.length → buf (s + j) = l.getD j 0) →
      (∀ x ∈ l, x ≠ 0) → buf (s + l.length) = 0 → l.length < fuel →
      readCStr_from buf s fuel = l := by
  induction l with
  | nil =>
    intro fuel s buf _ _ h0 hf
    match fuel, hf with
    | f + 1, _ => simpa [readCStr_from] using h0
  | cons a t ih =>
    intro fuel s buf hl hnz h0 hf
    match fuel, hf with
    | f + 1, hf =>
      have ha : buf s = a := by simpa using hl 0 (by simp)
      have hane : a ≠ 0 := hnz a (by simp)
      simp only [readCStr_from, ha, hane, if_neg]
      refine congrArg (a :: ·) (ih f (s + 1) buf ?_ ?_ ?_ ?_)
      · intro j hj
        have h2 := hl (j + 1) (by simpa using Nat.succ_lt_succ hj)
        have h3 : s + 1 + j = s + (j + 1) := by omega
        rw [h3]
        simpa using h2
      · exact fun x hx => hnz x (List.mem_cons_of_mem a hx)
      · have : s + 1 + t.length = s + (a :: t).length := by simp; omega
        rw [this]; exact h0
      · simpa using Nat.lt_of_succ_lt_succ hf

/-- C7: a symlink whose stored string has the conditional form
root?A:B (A holding no colon and neither part holding a zero byte, the
whole string fitting the inline buffer) resolves to A when the
effective user id is 0 and to B for any other user id.  The buffer may
hold arbitrary stale bytes past the terminator. -/
theorem conditional_symlink_resolution (A B : List Nat) (buf : Nat → Nat) (uid : Nat)
    (hA0 : ∀ a ∈ A, a ≠ 0) (hAc : ∀ a ∈ A, a ≠ COLON) (hB0 : ∀ b ∈ B, b ≠ 0)
    (hfit : (ROOTQ ++ A ++ [COLON] ++ B).length ≤ OSPFS_MAXSYMLINKLEN)
    (hbuf : ∀ j, j < (ROOTQ ++ A ++ [COLON] ++ B).length →
      buf j = (ROOTQ ++ A ++ [COLON] ++ B).getD j 0)
    (hnull : buf (ROOTQ ++ A ++ [COLON] ++ B).length = 0) :
    follow_link_resolved buf uid = if uid = 0 then A else B := by
  have h51 : OSPFS_MAXSYMLINKLEN = 51 := rfl
  have hRQ : ROOTQ.length = 5 := rfl
  have hL : (ROOTQ ++ A ++ [COLON] ++ B).length = 6 + A.length + B.length := by
    simp [ROOTQ]; omega
  set bytes := ROOTQ ++ A ++ [COLON] ++ B with hbytes
  set L := bytes.length with hLdef
  set ci := 5 + A.length with hcidef
  have hciL : ci < L := by omega
  have hfit51 : L ≤ 51 := by omega
  -- the byte at each position of the stored string
  have hgA : ∀ j, j < A.length → bytes.getD (5 + j) 0 = A.getD j 0 := by
    intro j hj
    rw [hbytes, List.append_assoc, List.append_assoc,
      List.getD_append_right _ _ _ _ (by omega),
      show 5 + j - ROOTQ.length = j by omega,
      List.getD_append _ _ _ _ hj]
  have hgc : bytes.getD ci 0 = COLON := by
    rw [hbytes, List.append_assoc, List.append_assoc,
      List.getD_append_right _ _ _ _ (by omega),
      show ci - ROOTQ.length = A.length by omega,
      List.getD_append_right _ _ _ _ (by omega), Nat.sub_self]
    rfl
  have hgB : ∀ j, j < B.length → bytes.getD (ci + 1 + j) 0 = B.getD j 0 := by
    intro j hj
    rw [hbytes, List.append_assoc, List.append_assoc,
      List.getD_append_right _ _ _ _ (by omega),
      show ci + 1 + j - ROOTQ.length = A.length + (1 + j) by omega,
      List.getD_append_right _ _ _ _ (by omega),
      Nat.add_sub_cancel_left,
      List.getD_append_right _ _ _ _ (by simp),
      show 1 + j - ([COLON] : List Nat).length = j by simp]
  -- the buffer after the strncpy call
  have hb1 : ∀ j, j < L → strncpy_rootq buf j = bytes.getD j 0 := by
    intro j hj
    by_cases h5 : j < 5
    · have hr : bytes.getD j 0 = ROOTQ.getD j 0 := by
        rw [hbytes, List.append_assoc, List.append_assoc,
          List.getD_append _ _ _ _ (by omega)]
      simp only [strncpy_rootq]
      rw [if_pos h5, hr]
    · simp only [strncpy_rootq]
      rw [if_neg h5]
      exact hbuf j hj
  have hb1L : strncpy_rootq buf L = 0 := by
    simp only [strncpy_rootq]
    rw [if_neg (by omega)]
    exact hnull
  have hmemA : ∀ j, j < A.length → A.getD j 0 ∈ A := by
    intro j hj
    rw [List.getD_eq_getElem A 0 hj]
    exact List.getElem_mem hj
  have hmemB : ∀ j, j < B.length → B.getD j 0 ∈ B := by
    intro j hj
    rw [List.getD_eq_getElem B 0 hj]
    exact List.getElem_mem hj
  have hRQnz : ∀ j, j < 5 → ROOTQ.getD j 0 ≠ 0 := by decide
  have hRQnc : ∀ j, j < 5 → ROOTQ.getD j 0 ≠ COLON := by decide
  have hnz : ∀ j, 0 ≤ j → j < L → strncpy_rootq buf j ≠ 0 := by
    intro j _ hj
    rw [hb1 j hj]
    by_cases h5 : j < 5
    · rw [show bytes.getD j 0 = ROOTQ.getD j 0 by
        rw [hbytes, List.append_assoc, List.append_assoc,
          List.getD_append _ _ _ _ (by omega)]]
      exact hRQnz j h5
    · by_cases hA : j < ci
      · rw [show j = 5 + (j - 5) by omega, hgA (j - 5) (by omega)]
        exact hA0 _ (hmemA (j - 5) (by omega))
      · by_cases hc : j = ci
        · rw [hc, hgc]; decide
        · rw [show j = ci + 1 + (j - ci - 1) by omega, hgB (j - ci - 1) (by omega)]
          exact hB0 _ (hmemB (j - ci - 1) (by omega))
  have hnc : ∀ j, 0 ≤ j → j < ci → strncpy_rootq buf j ≠ COLON := by
    intro j _ hj
    rw [hb1 j (by omega)]
    by_cases h5 : j < 5
    · rw [show bytes.getD j 0 = ROOTQ.getD j 0 by
        rw [hbytes, List.append_assoc, List.append_assoc,
          List.getD_append _ _ _ _ (by omega)]]
      exact hRQnc j h5
    · rw [show j = 5 + (j - 5) by omega, hgA (j - 5) (by omega)]
      exact hAc _ (hmemA (j - 5) (by omega))
  have hlen : cstrlen (strncpy_rootq buf) = L :=
    cstrlen_from_eq _ L (OSPFS_MAXSYMLINKLEN + 1) 0 (by omega) (by omega)
      (fun j hj hjL => hnz j hj hjL) hb1L
  have hcol : strncpy_rootq buf ci = COLON := by rw [hb1 ci hciL, hgc]
  have hci : colon_scan (strncpy_rootq buf) L 0 L = ci :=
    colon_scan_eq _ L ci L 0 (by omega) hciL (by omega) hnc hcol
  -- run the resolver
  simp only [follow_link_resolved, ospfs_follow_link]
  rw [hlen, hci, if_pos hciL]
  by_cases huid : uid = 0
  · simp only [if_pos huid]
    show readCStr_from _ 5 (OSPFS_MAXSYMLINKLEN + 1) = _
    refine readCStr_from_eq A (OSPFS_MAXSYMLINKLEN + 1) 5 _ ?_ hA0 ?_ (by omega)
    · intro j hj
      rw [if_neg (by omega), hb1 (5 + j) (by omega), hgA j hj]
    · rw [show (5 + A.length : Nat) = ci from rfl, if_pos rfl]
  · simp only [if_neg huid]
    show readCStr_from _ (ci + 1) (OSPFS_MAXSYMLINKLEN + 1) = _
    refine readCStr_from_eq B (OSPFS_MAXSYMLINKLEN + 1) (ci + 1) _ ?_ hB0 ?_ (by omega)
    · intro j hj
      rw [if_neg (by omega), hb1 (ci + 1 + j) (by omega), hgB j hj]
    · rw [if_neg (by omega), show (ci + 1 + B.length : Nat) = L by omega]
      exact hb1L

/-- Witness for C7 at the spec's own example, a symlink stored as
root?/a:/b followed as user 0 and as user 5. -/
theorem conditional_symlink_resolution_witness :
    ((ROOTQ ++ [47, 97] ++ [COLON] ++ [47, 98]).length ≤ OSPFS_MAXSYMLINKLEN) ∧
    follow_link_resolved wit_condBuf 0 = [47, 97] ∧
    follow_link_resolved wit_condBuf 5 = [47, 98] := by
  refine ⟨by decide, ?_, ?_⟩
  · have h := conditional_symlink_resolution [47, 97] [47, 98] wit_condBuf 0
      (by decide) (by decide) (by decide) (by decide) (fun j _ => rfl) rfl
    simpa using h
  · have h := conditional_symlink_resolution [47, 97] [47, 98] wit_condBuf 5
      (by decide) (by decide) (by decide) (by decide) (fun j _ => rfl) rfl
    simpa using h

theorem ospfs_read_loop_amount_le (oi : OspfsInode) (count : Nat) (d : Disk) :
    ∀ fuel fpos amount acc, amount ≤ count →
      (ospfs_read_loop oi count d fuel fpos amount acc).2.1 ≤ count := by
  intro fuel
  induction fuel with
  | zero => intro fpos amount acc h; exact h
  | succ f ih =>
    intro fpos amount acc h
    simp only [ospfs_read_loop]
    split
    · split
      · exact h
      · exact ih _ _ _ (by omega)
    · exact h

/-- C10: for every read whose starting position is at most the file
size, the byte count the read returns never exceeds size minus the
starting position: the requested count is clamped to the bytes
remaining before end of file. -/
theorem ospfs_read_never_past_eof (oi : OspfsInode) (d : Disk) (fpos count : Nat)
    (hpos : fpos ≤ oi.oi_size) (h32 : oi.oi_size < 2 ^ 32) :
    (ospfs_read oi d fpos count).2.1 ≤ oi.oi_size - fpos := by
  unfold ospfs_read
  have h : ∀ c, c ≤ oi.oi_size - fpos →
      (ospfs_read_loop oi c d (c + 1) fpos 0 []).2.1 ≤ oi.oi_size - fpos :=
    fun c hc => le_trans (ospfs_read_loop_amount_le oi c d (c + 1) fpos 0 [] (by omega)) hc
  apply h
  split
  · omega
  · rename_i hc
    omega

/-- Witness for C10: reading 100 bytes at position 3 of an 8-byte file
transfers at most 5 bytes. -/
theorem ospfs_read_never_past_eof_witness :
    (3 ≤ wit_oi8.oi_size ∧ wit_oi8.oi_size < 2 ^ 32) ∧
    (ospfs_read wit_oi8 wit_d8 3 100).2.1 ≤ wit_oi8.oi_size - 3 :=
  ⟨⟨by decide, by decide⟩,
    ospfs_read_never_past_eof wit_oi8 wit_d8 3 100 (by decide) (by decide)⟩

theorem readWord_congr {d1 d2 : Disk} {b : Nat}
    (h : ∀ o, d1.blocks b o = d2.blocks b o) (w : Nat) :
    readWord d1 b w = readWord d2 b w := by
  simp [readWord, h]

theorem writeBytes_blocks_ne {d : Disk} {b b2 : Nat} (o : Nat) (l : List Nat)
    (o2 : Nat) (h : b2 ≠ b) :
    (writeBytes d b o l).blocks b2 o2 = d.blocks b2 o2 := by
  simp [writeBytes, h]

theorem writeBytes_blocks_lt {d : Disk} {b : Nat} {o o2 : Nat} (l : List Nat)
    (h : o2 < o) :
    (writeBytes d b o l).blocks b o2 = d.blocks b o2 := by
  simp only [writeBytes]
  split
  · omega
  · rfl

theorem writeBytes_blocks_get {d : Disk} {b : Nat} (o : Nat) (l : List Nat)
    {j : Nat} (h : j < l.length) :
    (writeBytes d b o l).blocks b (o + j) = l.getD j 0 := by
  simp only [writeBytes]
  split
  · rw [Nat.add_sub_cancel_left]
  · rename_i hcon
    exact absurd ⟨by trivial, by omega, by omega⟩ hcon

/-- The disks d and d0 agree byte for byte on every block the pointer
tree of oi reads through d0. -/
def metaAgrees (oi : OspfsInode) (d0 d : Disk) : Prop :=
  ∀ b, isMetaBlock oi d0 b = true → ∀ o, d.blocks b o = d0.blocks b o

theorem isMetaBlock_indirect (oi : OspfsInode) (d : Disk) :
    isMetaBlock oi d oi.oi_indirect = true := by
  simp [isMetaBlock]

theorem isMetaBlock_indirect2 (oi : OspfsInode) (d : Disk) :
    isMetaBlock oi d oi.oi_indirect2 = true := by
  simp [isMetaBlock]

theorem isMetaBlock_inner (oi : OspfsInode) (d : Disk) {w : Nat}
    (hw : w < OSPFS_NINDIRECT) :
    isMetaBlock oi d (readWord d oi.oi_indirect2 w) = true := by
  simp only [isMetaBlock, Bool.or_eq_true, List.any_eq_true, beq_iff_eq]
  exact Or.inr ⟨w, List.mem_range.mpr hw, rfl⟩

theorem blk_resolve_congr {oi : OspfsInode} {d0 d : Disk} {k : Nat}
    (hk : k < OSPFS_MAXFILEBLKS) (hm : metaAgrees oi d0 d) :
    blk_resolve oi d k = blk_resolve oi d0 k := by
  unfold blk_resolve
  split
  · rename_i h2
    have hw : (k - (OSPFS_NDIRECT + OSPFS_NINDIRECT)) / OSPFS_NINDIRECT
        < OSPFS_NINDIRECT := by
      simp only [OSPFS_NDIRECT, OSPFS_NINDIRECT, OSPFS_BLKSIZE,
        OSPFS_MAXFILEBLKS] at hk h2 ⊢
      omega
    rw [readWord_congr (hm _ (isMetaBlock_indirect2 oi d0))]
    exact readWord_congr (hm _ (isMetaBlock_inner oi d0 hw)) _
  · split
    · exact readWord_congr (hm _ (isMetaBlock_indirect oi d0)) _
    · rfl

theorem ospfs_inode_blockno_eq (oi : OspfsInode) (d : Disk) (p : Nat) :
    ospfs_inode_blockno oi d p =
      if p < oi.oi_size ∧ oi.oi_ftype ≠ OSPFS_FTYPE_SYMLINK then
        blk_resolve oi d (p / OSPFS_BLKSIZE)
      else 0 := by
  simp only [ospfs_inode_blockno, blk_resolve]
  split_ifs with h1 h2 h3 h4 <;> first | rfl | omega

theorem div_lt_nblocks {p size : Nat} (h : p < size) :
    p / OSPFS_BLKSIZE < ospfs_size2nblocks size := by
  simp only [ospfs_size2nblocks, OSPFS_BLKSIZE]
  omega

theorem drop_take_getD (l : List Nat) (a n j : Nat) (hj : j < n) :
    ((l.drop a).take n).getD j 0 = l.getD (a + j) 0 := by
  simp [List.getD_eq_getD_get?, List.get?_eq_getElem?,
    List.getElem?_take_of_lt hj, List.getElem?_drop]

theorem ospfs_write_loop_step {oi : OspfsInode} {buf : List Nat}
    {count fuel : Nat} {d : Disk} {fpos amount bn : Nat}
    (hlt : amount < count) (hbn : ospfs_inode_blockno oi d fpos = bn)
    (hbn0 : bn ≠ 0) :
    ospfs_write_loop oi buf count (fuel + 1) d fpos amount =
      ospfs_write_loop oi buf count fuel
        (writeBytes d bn (fpos % OSPFS_BLKSIZE)
          ((buf.drop amount).take
            (min (count - amount) (OSPFS_BLKSIZE - fpos % OSPFS_BLKSIZE))))
        (fpos + min (count - amount) (OSPFS_BLKSIZE - fpos % OSPFS_BLKSIZE))
        (amount + min (count - amount) (OSPFS_BLKSIZE - fpos % OSPFS_BLKSIZE)) := by
  simp [ospfs_write_loop, hlt, hbn, hbn0]

theorem ospfs_write_loop_done {oi : OspfsInode} {buf : List Nat}
    {count fuel : Nat} {d : Disk} {fpos amount : Nat} (h : ¬ amount < count) :
    ospfs_write_loop oi buf count (fuel + 1) d fpos amount
      = (CopyEnd.done, amount, d) := by
  simp [ospfs_write_loop, h]

theorem ospfs_write_loop_spec
    (oi : OspfsInode) (d0 : Disk) (fpos0 : Nat) (buf : List Nat)
    (hft : oi.oi_ftype ≠ OSPFS_FTYPE_SYMLINK)
    (hsz : fpos0 + buf.length ≤ oi.oi_size)
    (hmax : ospfs_size2nblocks oi.oi_size ≤ OSPFS_MAXFILEBLKS)
    (hnz : ∀ k, k < ospfs_size2nblocks oi.oi_size → blk_resolve oi d0 k ≠ 0)
    (hinj : ∀ k, k < ospfs_size2nblocks oi.oi_size →
      ∀ l, l < ospfs_size2nblocks oi.oi_size →
      blk_resolve oi d0 k = blk_resolve oi d0 l → k = l)
    (hsep : ∀ k, k < ospfs_size2nblocks oi.oi_size →
      isMetaBlock oi d0 (blk_resolve oi d0 k) = false) :
    ∀ fuel amount d fpos,
      fpos = fpos0 + amount →
      amount ≤ buf.length →
      buf.length - amount < fuel →
      (∀ b o, (∀ j, j < amount →
          b ≠ blk_resolve oi d0 ((fpos0 + j) / OSPFS_BLKSIZE)) →
        d.blocks b o = d0.blocks b o) →
      (∀ i, i < amount →
        d.blocks (blk_resolve oi d0 ((fpos0 + i) / OSPFS_BLKSIZE))
          ((fpos0 + i) % OSPFS_BLKSIZE) = buf.getD i 0) →
      ∃ dF, ospfs_write_loop oi buf buf.length fuel d fpos amount
          = (CopyEnd.done, buf.length, dF) ∧
        (∀ b o, (∀ j, j < buf.length →
            b ≠ blk_resolve oi d0 ((fpos0 + j) / OSPFS_BLKSIZE)) →
          dF.blocks b o = d0.blocks b o) ∧
        (∀ i, i < buf.length →
          dF.blocks (blk_resolve oi d0 ((fpos0 + i) / OSPFS_BLKSIZE))
            ((fpos0 + i) % OSPFS_BLKSIZE) = buf.getD i 0) := by
  intro fuel
  induction fuel with
  | zero => intro amount d fpos _ _ hfu; omega
  | succ f ih =>
    intro amount d fpos hf ha hfu P1 P2
    by_cases hlt : amount < buf.length
    · have hagree : metaAgrees oi d0 d := by
        intro b hb o
        apply P1
        intro j hj hbe
        have hk := div_lt_nblocks (show fpos0 + j < oi.oi_size by omega)
        rw [hbe, hsep _ hk] at hb
        exact Bool.false_ne_true hb
      have hplt : fpos0 + amount < oi.oi_size := by omega
      have hkcur := div_lt_nblocks hplt
      have hbn : ospfs_inode_blockno oi d fpos
          = blk_resolve oi d0 ((fpos0 + amount) / OSPFS_BLKSIZE) := by
        rw [hf, ospfs_inode_blockno_eq, if_pos ⟨hplt, hft⟩]
        exact blk_resolve_congr (lt_of_lt_of_le hkcur hmax) hagree
      have hbn0 : blk_resolve oi d0 ((fpos0 + amount) / OSPFS_BLKSIZE) ≠ 0 :=
        hnz _ hkcur
      have hmodlt : fpos % OSPFS_BLKSIZE < OSPFS_BLKSIZE :=
        Nat.mod_lt _ (by simp [OSPFS_BLKSIZE])
      have hn1 : 1 ≤ min (buf.length - amount) (OSPFS_BLKSIZE - fpos % OSPFS_BLKSIZE) := by
        omega
      have hnle : min (buf.length - amount) (OSPFS_BLKSIZE - fpos % OSPFS_BLKSIZE)
          ≤ buf.length - amount := Nat.min_le_left _ _
      rw [ospfs_write_loop_step hlt hbn hbn0]
      have hchunk : ((buf.drop amount).take
          (min (buf.length - amount) (OSPFS_BLKSIZE - fpos % OSPFS_BLKSIZE))).length
          = min (buf.length - amount) (OSPFS_BLKSIZE - fpos % OSPFS_BLKSIZE) := by
        simp only [List.length_take, List.length_drop]
        omega
      refine ih (amount + min (buf.length - amount) (OSPFS_BLKSIZE - fpos % OSPFS_BLKSIZE))
        _ _ (by omega) (by omega) (by omega) ?_ ?_
      · intro b o hb
        have hbne : b ≠ blk_resolve oi d0 ((fpos0 + amount) / OSPFS_BLKSIZE) :=
          hb amount (by omega)
        rw [writeBytes_blocks_ne _ _ _ hbne]
        exact P1 b o (fun j hj => hb j (by omega))
      · intro i hi
        by_cases hia : i < amount
        · by_cases htb : blk_resolve oi d0 ((fpos0 + i) / OSPFS_BLKSIZE)
              = blk_resolve oi d0 ((fpos0 + amount) / OSPFS_BLKSIZE)
          · have hkk : (fpos0 + i) / OSPFS_BLKSIZE = (fpos0 + amount) / OSPFS_BLKSIZE :=
              hinj _ (div_lt_nblocks (by omega)) _ hkcur htb
            have hmlt : (fpos0 + i) % OSPFS_BLKSIZE < fpos % OSPFS_BLKSIZE := by
              rw [hf]
              simp only [OSPFS_BLKSIZE] at hkk ⊢
              omega
            rw [htb, writeBytes_blocks_lt _ hmlt, ← htb]
            exact P2 i hia
          · rw [writeBytes_blocks_ne _ _ _ htb]
            exact P2 i hia
        · have hj : i - amount
              < min (buf.length - amount) (OSPFS_BLKSIZE - fpos % OSPFS_BLKSIZE) := by
            omega
          have hdiv : (fpos0 + i) / OSPFS_BLKSIZE = (fpos0 + amount) / OSPFS_BLKSIZE := by
            simp only [OSPFS_BLKSIZE] at hj ⊢
            rw [hf] at hj
            omega
          have hmod : (fpos0 + i) % OSPFS_BLKSIZE
              = fpos % OSPFS_BLKSIZE + (i - amount) := by
            simp only [OSPFS_BLKSIZE] at hj ⊢
            rw [hf] at hj ⊢
            omega
          rw [hdiv, hmod, writeBytes_blocks_get _ _ (by rw [hchunk]; exact hj),
            drop_take_getD _ _ _ _ hj]
          congr 1
          omega
    · have hae : amount = buf.length := by omega
      subst hae
      exact ⟨d, ospfs_write_loop_done hlt, P1, P2⟩

theorem ospfs_read_loop_step {oi : OspfsInode} {count fuel : Nat} {d : Disk}
    {fpos amount bn : Nat} {acc : List Nat}
    (hlt : amount < count) (hbn : ospfs_inode_blockno oi d fpos = bn)
    (hbn0 : bn ≠ 0) :
    ospfs_read_loop oi count d (fuel + 1) fpos amount acc =
      ospfs_read_loop oi count d fuel
        (fpos + min (count - amount) (OSPFS_BLKSIZE - fpos % OSPFS_BLKSIZE))
        (amount + min (count - amount) (OSPFS_BLKSIZE - fpos % OSPFS_BLKSIZE))
        (acc ++ readBytes d bn (fpos % OSPFS_BLKSIZE)
          (min (count - amount) (OSPFS_BLKSIZE - fpos % OSPFS_BLKSIZE))) := by
  simp [ospfs_read_loop, hlt, hbn, hbn0]

theorem ospfs_read_loop_done {oi : OspfsInode} {count fuel : Nat} {d : Disk}
    {fpos amount : Nat} {acc : List Nat} (h : ¬ amount < count) :
    ospfs_read_loop oi count d (fuel + 1) fpos amount acc
      = (CopyEnd.done, amount, acc) := by
  simp [ospfs_read_loop, h]

theorem ospfs_read_loop_spec
    (oi : OspfsInode) (d0 dF : Disk) (fpos0 count : Nat)
    (hft : oi.oi_ftype ≠ OSPFS_FTYPE_SYMLINK)
    (hsz : fpos0 + count ≤ oi.oi_size)
    (hmax : ospfs_size2nblocks oi.oi_size ≤ OSPFS_MAXFILEBLKS)
    (hnz : ∀ k, k < ospfs_size2nblocks oi.oi_size → blk_resolve oi d0 k ≠ 0)
    (hmeta : metaAgrees oi d0 dF) :
    ∀ fuel amount acc fpos,
      fpos = fpos0 + amount →
      amount ≤ count →
      count - amount < fuel →
      ospfs_read_loop oi count dF fuel fpos amount acc
        = (CopyEnd.done, count, acc ++ (List.range (count - amount)).map
            (fun i => dF.blocks
              (blk_resolve oi d0 ((fpos0 + amount + i) / OSPFS_BLKSIZE))
              ((fpos0 + amount + i) % OSPFS_BLKSIZE))) := by
  intro fuel
  induction fuel with
  | zero => intro amount acc fpos _ _ hfu; omega
  | succ f ih =>
    intro amount acc fpos hf ha hfu
    by_cases hlt : amount < count
    · have hplt : fpos0 + amount < oi.oi_size := by omega
      have hkcur := div_lt_nblocks hplt
      have hbn : ospfs_inode_blockno oi dF fpos
          = blk_resolve oi d0 ((fpos0 + amount) / OSPFS_BLKSIZE) := by
        rw [hf, ospfs_inode_blockno_eq, if_pos ⟨hplt, hft⟩]
        exact blk_resolve_congr (lt_of_lt_of_le hkcur hmax) hmeta
      have hbn0 : blk_resolve oi d0 ((fpos0 + amount) / OSPFS_BLKSIZE) ≠ 0 :=
        hnz _ hkcur
      have hmodlt : fpos % OSPFS_BLKSIZE < OSPFS_BLKSIZE :=
        Nat.mod_lt _ (by simp [OSPFS_BLKSIZE])
      rw [ospfs_read_loop_step hlt hbn hbn0]
      set n := min (count - amount) (OSPFS_BLKSIZE - fpos % OSPFS_BLKSIZE) with hn
      rw [ih (amount + n) _ _ (by omega) (by omega) (by omega)]
      rw [List.append_assoc]
      refine congrArg (fun l => (CopyEnd.done, count, acc ++ l)) ?_
      rw [show count - (amount + n) = count - amount - n from by omega]
      conv_rhs => rw [show count - amount = n + (count - amount - n) from by omega,
        List.range_add, List.map_append, List.map_map]
      refine congrArg₂ (· ++ ·) ?_ ?_
      · unfold readBytes
        refine List.map_congr_left ?_
        intro i hi
        have hilt : i < n := List.mem_range.mp hi
        have hdiv : (fpos0 + amount + i) / OSPFS_BLKSIZE
            = (fpos0 + amount) / OSPFS_BLKSIZE := by
          simp only [OSPFS_BLKSIZE] at hn hilt ⊢
          rw [hf] at hn
          omega
        have hmod : (fpos0 + amount + i) % OSPFS_BLKSIZE
            = fpos % OSPFS_BLKSIZE + i := by
          simp only [OSPFS_BLKSIZE] at hn hilt ⊢
          rw [hf] at hn ⊢
          omega
        rw [hdiv, hmod]
      · refine List.map_congr_left ?_
        intro i _
        simp only [Function.comp]
        rw [show fpos0 + (amount + n) + i = fpos0 + amount + (n + i) from by omega]
    · have hae : amount = count := by omega
      subst hae
      rw [ospfs_read_loop_done hlt]
      simp

/-- C8: write-then-read round trip.  The size-adjustment step of
ospfs_write (hypothesis hres names its result) yields an inode and disk
on which the write completes: under the section-3 invariants of that
state - the file fits the pointer tree, every file block resolves to a
nonzero block number, resolution is injective, and data blocks are
disjoint from the blocks the pointer tree itself reads - the copy loop
transfers all of buf and a subsequent ospfs_read of len(buf) bytes at
the same offset returns exactly buf. -/
theorem write_read_roundtrip
    (oi oi1 : OspfsInode) (d d1 : Disk) (fpos0 : Nat) (buf : List Nat)
    (hres : write_resize oi d fpos0 buf.length = (oi1, d1))
    (hft : oi1.oi_ftype ≠ OSPFS_FTYPE_SYMLINK)
    (hsz : fpos0 + buf.length ≤ oi1.oi_size)
    (hmax : ospfs_size2nblocks oi1.oi_size ≤ OSPFS_MAXFILEBLKS)
    (hnz : ∀ k, k < ospfs_size2nblocks oi1.oi_size → blk_resolve oi1 d1 k ≠ 0)
    (hinj : ∀ k, k < ospfs_size2nblocks oi1.oi_size →
      ∀ l, l < ospfs_size2nblocks oi1.oi_size →
      blk_resolve oi1 d1 k = blk_resolve oi1 d1 l → k = l)
    (hsep : ∀ k, k < ospfs_size2nblocks oi1.oi_size →
      isMetaBlock oi1 d1 (blk_resolve oi1 d1 k) = false) :
    (ospfs_write oi d false fpos0 buf).1 = CopyEnd.done ∧
    (ospfs_write oi d false fpos0 buf).2.1 = buf.length ∧
    ospfs_read oi1 (ospfs_write oi d false fpos0 buf).2.2.2 fpos0 buf.length
      = (CopyEnd.done, buf.length, buf) := by
  obtain ⟨dF, hloop, Q1, Q2⟩ :=
    ospfs_write_loop_spec oi1 d1 fpos0 buf hft hsz hmax hnz hinj hsep
      (buf.length + 1) 0 d1 fpos0 (by omega) (by omega) (by omega)
      (fun b o _ => rfl) (fun i hi => absurd hi (by omega))
  have hw : ospfs_write oi d false fpos0 buf = (CopyEnd.done, buf.length, oi1, dF) := by
    unfold ospfs_write
    simp only [Bool.false_eq_true, if_false]
    rw [hres]
    unfold ospfs_write_go
    rw [hloop]
  rw [hw]
  refine ⟨rfl, rfl, ?_⟩
  have hmetaF : metaAgrees oi1 d1 dF := by
    intro b hb o
    apply Q1
    intro j hj hbe
    have hk := div_lt_nblocks (show fpos0 + j < oi1.oi_size by omega)
    rw [hbe, hsep _ hk] at hb
    exact Bool.false_ne_true hb
  show ospfs_read oi1 dF fpos0 buf.length = (CopyEnd.done, buf.length, buf)
  unfold ospfs_read
  rw [if_neg (by omega)]
  rw [ospfs_read_loop_spec oi1 d1 dF fpos0 buf.length hft hsz hmax hnz hmetaF
    (buf.length + 1) 0 [] fpos0 (by omega) (by omega) (by omega)]
  simp only [Nat.sub_zero, Nat.add_zero, List.nil_append]
  refine congrArg (fun l => (CopyEnd.done, buf.length, l)) ?_
  refine List.ext_getElem (by simp) ?_
  intro i h1 h2
  have hi : i < buf.length := by simpa using h2
  rw [List.getElem_map, List.getElem_range]
  rw [Q2 i hi, List.getD_eq_getElem buf 0 hi]

set_option maxRecDepth 8000 in
/-- Witness for C8: writing the two bytes 9, 8 at offset 2 of an 8-byte
one-block file and reading them back. -/
theorem write_read_roundtrip_witness :
    (2 + ([9, 8] : List Nat).length ≤ wit_oi8.oi_size) ∧
    ospfs_read wit_oi8 (ospfs_write wit_oi8 wit_d8 false 2 [9, 8]).2.2.2 2 2
      = (CopyEnd.done, 2, [9, 8]) := by
  refine ⟨by decide, ?_⟩
  have h := write_read_roundtrip wit_oi8 wit_oi8 wit_d8 wit_d8 2 [9, 8] rfl
    (by decide) (by decide) (by decide) (by decide) (by decide) (by decide)
  exact h.2.2
